import Mathlib

/-!
Shallow embedding of the qBittorrent tracker URL rewriter
(`index.js` and `lib/QbtClient.js`) and proofs about its
orchestrator pipeline, filtering, masking and loop-interval logic.

Network effects are modelled by an `Env` oracle giving the outcome of
each remote call (login, torrent list, tracker list per hash, edit per
triple), and each run records the sequence of remote calls it makes.
-/

namespace ATC

/-- Torrent as returned by the torrents/info endpoint: the fields the
tool reads are the hash and the display name. -/
structure Torrent where
  hash : String
  name : String
deriving DecidableEq

/-- Tracker entry as returned by torrents/trackers: the tool only reads
the announce URL. -/
structure TrackerEntry where
  url : String
deriving DecidableEq

/-- One remote API call made during a run. -/
inductive Call where
  | login
  | getTorrents
  | getTrackers (hash : String)
  | editTracker (hash origUrl newUrl : String)
deriving DecidableEq

/-- The input arguments of `runOnce` (after `parseArgs` merged CLI and
environment fallbacks). A `none`/empty option models a JS-falsy value;
`hash = []` models an absent `--hash` list. Filters `category`, `tag`
and `state` are forwarded verbatim to the server-side query and do not
influence the control flow modelled here, so the server's response to
the filtered query is what `Env.torrents` denotes. -/
structure Args where
  help : Bool
  baseUrl : Option String
  username : Option String
  password : Option String
  pattern : Option String
  replacement : Option String
  hash : List String
  dryRun : Bool
deriving DecidableEq

/-- Oracle for the remote system and the JS regex engine:
`loginOk` is whether `client.login()` succeeds; `torrents` is the
response of `client.getTorrents(args)` (`none` = thrown error);
`trackers h` the response of `client.getTrackers(h)`; `editOk h o n`
whether `client.editTracker(h, o, n)` succeeds; `regexCompiles p`
whether `new RegExp(p, 'g')` succeeds; `replaceG p r u` the value of
`u.replace(new RegExp(p, 'g'), r)`. -/
structure Env where
  loginOk : Bool
  torrents : Option (List Torrent)
  trackers : String → Option (List TrackerEntry)
  editOk : String → String → String → Bool
  regexCompiles : String → Bool
  replaceG : String → String → String → String

/-- JS truthiness of an optional string option (`!args[k]`):
absent and empty strings are falsy. -/
def jsPresent : Option String → Bool
  | none => false
  | some s => !s.isEmpty

/-- JS `String.prototype.toLowerCase`, modelled characterwise on the
string's character list. -/
def strLower (s : String) : String :=
  String.mk (s.data.map Char.toLower)

/-- Whether the second character list starts with the first. -/
def startsWithL : List Char → List Char → Bool
  | [], _ => true
  | _ :: _, [] => false
  | p :: ps, c :: cs => p == c && startsWithL ps cs

/-- Eligibility test `/^https?:\/\//i.test(url)`: the URL starts,
case-insensitively, with `http://` or `https://`. -/
def isHttpUrl (s : String) : Bool :=
  startsWithL (("http://").data) ((strLower s).data) ||
    startsWithL (("https://").data) ((strLower s).data)

/-- The skip condition `!origUrl || !/^https?:\/\//i.test(origUrl)` of
the inner tracker loop. -/
def skipUrl (u : String) : Bool :=
  u.isEmpty || !(isHttpUrl u)

/-- Mutable state of the per-torrent/per-tracker loops: the two
counters `totalChecked` and `totalChanged` plus the calls made so far. -/
structure RunState where
  checked : Nat
  changed : Nat
  calls : List Call
deriving DecidableEq

/-- Body of the inner `for (const tr of trackers)` loop of `runOnce`. -/
def stepTracker (env : Env) (pat repl : String) (dryRun : Bool) (t : Torrent)
    (st : RunState) (tr : TrackerEntry) : RunState :=
  if skipUrl tr.url then st
  else
    let newUrl := env.replaceG pat repl tr.url
    let st1 : RunState := { st with checked := st.checked + 1 }
    if newUrl = tr.url then st1
    else if dryRun then st1
    else
      let st2 : RunState := { st1 with calls := st1.calls ++ [Call.editTracker t.hash tr.url newUrl] }
      if env.editOk t.hash tr.url newUrl then { st2 with changed := st2.changed + 1 }
      else st2

/-- Body of the outer `for (const t of torrents)` loop of `runOnce`:
fetch the torrent's trackers (a failure skips the torrent), then run
the inner loop over the returned tracker entries. -/
def stepTorrent (env : Env) (pat repl : String) (dryRun : Bool)
    (st : RunState) (t : Torrent) : RunState :=
  let st1 : RunState := { st with calls := st.calls ++ [Call.getTrackers t.hash] }
  match env.trackers t.hash with
  | none => st1
  | some trs => trs.foldl (stepTracker env pat repl dryRun t) st1

/-- Client-side multi-hash filter of `runOnce`: when more than one
explicit hash was requested, keep only torrents whose lowercased hash
is in the lowercased requested set. -/
def filterByHashes (hashes : List String) (ts : List Torrent) : List Torrent :=
  if 1 < hashes.length then
    ts.filter (fun t => (hashes.map strLower).contains (strLower t.hash))
  else ts

/-- The final report line `Done. Checked ... {Would change | Changed} ...`:
the two counters and whether the dry-run wording was used. -/
structure Summary where
  checked : Nat
  changed : Nat
  preview : Bool
deriving DecidableEq

/-- Outcome of one `runOnce` invocation: the returned exit code, the
remote calls made in order, the final report line if one was emitted,
and whether the early `No torrents matched the filters` message was
printed instead. -/
structure RunResult where
  code : Nat
  calls : List Call
  summary : Option Summary
  noTorrentsMsg : Bool
deriving DecidableEq

/-- The orchestrator `runOnce`, modelled step for step: help shortcut,
required-option check, regex compilation, login, torrent listing with
the client-side multi-hash filter, the empty-list early return, the
per-torrent/per-tracker loops, and the final report. -/
def runOnce (env : Env) (a : Args) : RunResult :=
  if a.help then ⟨0, [], none, false⟩
  else if ([a.baseUrl, a.username, a.password, a.pattern, a.replacement].any
      fun o => !jsPresent o) then ⟨2, [], none, false⟩
  else
    let pat := a.pattern.getD ("")
    let repl := a.replacement.getD ("")
    if !env.regexCompiles pat then ⟨2, [], none, false⟩
    else if !env.loginOk then ⟨1, [Call.login], none, false⟩
    else
      match env.torrents with
      | none => ⟨1, [Call.login, Call.getTorrents], none, false⟩
      | some ts0 =>
        let ts := filterByHashes a.hash ts0
        if ts.isEmpty then ⟨0, [Call.login, Call.getTorrents], none, true⟩
        else
          let st := ts.foldl (stepTorrent env pat repl a.dryRun)
            ⟨0, 0, [Call.login, Call.getTorrents]⟩
          ⟨0, st.calls, some ⟨st.checked, st.changed, a.dryRun⟩, false⟩

/-- Secret-masking helper `maskSecret` of `index.js`. -/
def maskSecret (val : String) : String :=
  if val.isEmpty then String.mk []
  else if val.length ≤ 2 then String.mk (List.replicate val.length '*')
  else String.mk (List.replicate (val.length - 2) '*' ++ val.data.drop (val.length - 2))

/-- Result of JS `Number(...)` coercion on the interval input. -/
inductive JsNum where
  | nan
  | posInf
  | negInf
  | val (q : ℚ)
deriving DecidableEq

/-- The loop driver's interval computation:
`let intervalSec = Number(args.interval || 10);`
`if (!Number.isFinite(intervalSec) || intervalSec <= 0) intervalSec = 10;`
`toNumber` is the JS `Number` coercion on strings; a falsy interval
(absent or empty string) short-circuits to the literal 10. -/
def effectiveIntervalSec (interval : Option String) (toNumber : String → JsNum) : ℚ :=
  let n : JsNum :=
    match interval with
    | none => JsNum.val 10
    | some s => if s.isEmpty then JsNum.val 10 else toNumber s
  match n with
  | JsNum.val q => if q ≤ 0 then 10 else q
  | _ => 10

/-- Scanner behind the model of `String.prototype.replace` with a
global-flag regex, over an abstract matcher `m`: at each position, `m
suffix = some (len, rep)` means the regex matches `len` characters
there and the replacement template expands to `rep`. The first
argument counts characters of the current match still to be consumed,
so the scan replaces each leftmost non-overlapping match and resumes
after it (an empty match copies one input character to the output, as
JS does). -/
def jsReplaceGo (m : List Char → Option (Nat × List Char)) : Nat → List Char → List Char
  | 0, [] =>
    match m [] with
    | some (_, rep) => rep
    | none => []
  | 0, c :: rest =>
    match m (c :: rest) with
    | none => c :: jsReplaceGo m 0 rest
    | some (len, rep) =>
      if len = 0 then rep ++ c :: jsReplaceGo m 0 rest
      else rep ++ jsReplaceGo m (len - 1) rest
  | _ + 1, [] => []
  | k + 1, _ :: rest => jsReplaceGo m k rest

/-- Model of `url.replace(regex, replacement)` for a regex carrying the
global flag: scan from the start with no pending match. -/
def jsReplaceAll (m : List Char → Option (Nat × List Char)) (s : List Char) : List Char :=
  jsReplaceGo m 0 s

/-- A matcher finds no match anywhere in `s` (the JS `regex.test(s) ===
false` situation): every suffix of `s`, the empty one included, is
rejected. -/
def MatchesNowhere (m : List Char → Option (Nat × List Char)) (s : List Char) : Prop :=
  ∀ i, i ≤ s.length → m (List.drop i s) = none

lemma jsReplaceAll_of_matchesNowhere (m : List Char → Option (Nat × List Char)) :
    ∀ s : List Char, MatchesNowhere m s → jsReplaceAll m s = s := by
  intro s
  induction s with
  | nil =>
    intro h
    have h0 := h 0 (by simp)
    simp only [List.drop_nil] at h0
    simp [jsReplaceAll, jsReplaceGo, h0]
  | cons c rest ih =>
    intro h
    have h0 := h 0 (by simp)
    simp only [List.drop_zero] at h0
    have htail : MatchesNowhere m rest := by
      intro i hi
      have := h (i + 1) (by simpa using Nat.succ_le_succ hi)
      simpa using this
    have := ih htail
    simp [jsReplaceAll, jsReplaceGo, h0]
    simpa [jsReplaceAll] using this

/-- C7: the masking function preserves the input's length; inputs of
length at most 2 become all mask characters, and longer inputs keep
exactly their last two characters with every preceding character
replaced by the mask character. -/
theorem maskSecret_spec (s : String) :
    (maskSecret s).length = s.length ∧
    (s.length ≤ 2 → (maskSecret s).data = List.replicate s.length '*') ∧
    (2 < s.length → (maskSecret s).data =
      List.replicate (s.length - 2) '*' ++ List.drop (s.length - 2) s.data) := by
  have hdlen : s.data.length = s.length := rfl
  by_cases he : s.isEmpty
  · have hs : s = "" := (String.isEmpty_iff s).mp he
    subst hs
    exact ⟨rfl, fun _ => rfl, fun h => absurd h (by decide)⟩
  · by_cases h2 : s.length ≤ 2
    · have hdata : (maskSecret s).data = List.replicate s.length '*' := by
        rw [maskSecret, if_neg he, if_pos h2]
      have hlen : (maskSecret s).length = s.length := by
        show (maskSecret s).data.length = s.length
        rw [hdata, List.length_replicate]
      exact ⟨hlen, fun _ => hdata, fun h => absurd h (by omega)⟩
    · have hdata : (maskSecret s).data =
          List.replicate (s.length - 2) '*' ++ List.drop (s.length - 2) s.data := by
        rw [maskSecret, if_neg he, if_neg h2]
      have hlen : (maskSecret s).length = s.length := by
        show (maskSecret s).data.length = s.length
        rw [hdata]
        rw [List.length_append, List.length_replicate, List.length_drop, hdlen]
        omega
      exact ⟨hlen, fun h => absurd h (by omega), fun _ => hdata⟩

/-- Closed instance of the masking theorem at the concrete input
string abcd. -/
theorem maskSecret_spec_witness :
    ("abcd".length ≤ 2 → (maskSecret ("abcd")).data = List.replicate ("abcd".length) '*') ∧
    (2 < "abcd".length → (maskSecret ("abcd")).data =
      List.replicate ("abcd".length - 2) '*' ++ List.drop ("abcd".length - 2) ("abcd".data)) ∧
    2 < "abcd".length ∧
    (maskSecret ("abcd")).data =
      List.replicate ("abcd".length - 2) '*' ++ List.drop ("abcd".length - 2) ("abcd".data) :=
  ⟨(maskSecret_spec ("abcd")).2.1, (maskSecret_spec ("abcd")).2.2, by decide,
    (maskSecret_spec ("abcd")).2.2 (by decide)⟩

/-- C9: in loop mode the interval used is the configured one exactly
when it parses to a positive finite number; an absent, non-numeric, or
non-positive configured interval falls back to the default of 10
seconds. -/
theorem loopInterval_spec (toNumber : String → JsNum) :
    (∀ s q, s.isEmpty = false → toNumber s = JsNum.val q → 0 < q →
      effectiveIntervalSec (some s) toNumber = q) ∧
    effectiveIntervalSec none toNumber = 10 ∧
    (∀ s, toNumber s = JsNum.nan → effectiveIntervalSec (some s) toNumber = 10) ∧
    (∀ s q, toNumber s = JsNum.val q → q ≤ 0 →
      effectiveIntervalSec (some s) toNumber = 10) := by
  refine ⟨?_, by norm_num [effectiveIntervalSec], ?_, ?_⟩
  · intro s q hs hn hq
    simp [effectiveIntervalSec, hs, hn, not_le.mpr hq]
  · intro s hn
    by_cases hs : s.isEmpty
    · simp [effectiveIntervalSec, hs]
    · simp only [Bool.not_eq_true] at hs
      simp [effectiveIntervalSec, hs, hn]
  · intro s q hn hq
    by_cases hs : s.isEmpty
    · simp [effectiveIntervalSec, hs]
    · simp only [Bool.not_eq_true] at hs
      simp [effectiveIntervalSec, hs, hn, hq]

/-- Concrete JS Number coercion used to witness the interval theorem. -/
def toNumberW : String → JsNum :=
  fun s => if s = "5" then JsNum.val 5 else if s = "-3" then JsNum.val (-3) else JsNum.nan

/-- Closed instance of the interval theorem: a positive numeric
interval is used as is, a non-numeric one and a negative one fall back
to 10. -/
theorem loopInterval_spec_witness :
    effectiveIntervalSec (some ("5")) toNumberW = 5 ∧
    effectiveIntervalSec (some ("abc")) toNumberW = 10 ∧
    effectiveIntervalSec (some ("-3")) toNumberW = 10 :=
  ⟨(loopInterval_spec toNumberW).1 ("5") 5 rfl rfl (by norm_num),
   (loopInterval_spec toNumberW).2.2.1 ("abc") rfl,
   (loopInterval_spec toNumberW).2.2.2 ("-3") (-3) rfl (by norm_num)⟩

/-- C8: for any rewrite rule, if the rewritten URL no longer matches
the pattern anywhere, rewriting it again returns it unchanged, so the
rewrite is idempotent on its own output. -/
theorem rewrite_idempotent (m : List Char → Option (Nat × List Char)) (u : List Char)
    (h : MatchesNowhere m (jsReplaceAll m u)) :
    jsReplaceAll m (jsReplaceAll m u) = jsReplaceAll m u :=
  jsReplaceAll_of_matchesNowhere m (jsReplaceAll m u) h

/-- Concrete matcher used to witness the idempotence theorem: it
matches the three characters old and replaces them with new. -/
def matcherW : List Char → Option (Nat × List Char) :=
  fun l => if List.take 3 l = ['o', 'l', 'd'] then some (3, ['n', 'e', 'w']) else none

/-- Closed instance of the idempotence theorem: rewriting old yields
new, which the pattern no longer matches, and a second rewrite leaves
it unchanged. -/
theorem rewrite_idempotent_witness :
    jsReplaceAll matcherW ['o', 'l', 'd'] = ['n', 'e', 'w'] ∧
    MatchesNowhere matcherW (jsReplaceAll matcherW ['o', 'l', 'd']) ∧
    jsReplaceAll matcherW (jsReplaceAll matcherW ['o', 'l', 'd']) =
      jsReplaceAll matcherW ['o', 'l', 'd'] := by
  have hval : jsReplaceAll matcherW ['o', 'l', 'd'] = ['n', 'e', 'w'] := by decide
  have hnm : MatchesNowhere matcherW (jsReplaceAll matcherW ['o', 'l', 'd']) := by
    rw [hval]
    intro i hi
    have hi3 : i ≤ 3 := by simpa using hi
    interval_cases i <;> rfl
  exact ⟨hval, hnm, rewrite_idempotent matcherW ['o', 'l', 'd'] hnm⟩

section Helpers

variable {α β : Type _}

lemma foldl_preserves_mem (Inv : β → Prop) :
    ∀ (l : List α) (f : β → α → β),
      (∀ b a, a ∈ l → Inv b → Inv (f b a)) → ∀ b, Inv b → Inv (l.foldl f b)
  | [], _, _, _, hb => hb
  | a :: l, f, hstep, b, hb =>
    foldl_preserves_mem Inv l f
      (fun b x hx hb => hstep b x (List.mem_cons_of_mem a hx) hb)
      (f b a) (hstep b a (List.mem_cons_self a l) hb)

end Helpers

/-- Property of one recorded call: if it is an edit, its original URL
passed the eligibility test (nonempty, `http`/`https` scheme). -/
def editUrlEligible : Call → Prop
  | Call.editTracker _ o _ => skipUrl o = false
  | _ => True

/-- Property of one recorded call relative to a set `S` of lowercased
requested hashes: any per-torrent call (tracker fetch or edit) targets
a hash whose lowercase form is in `S`. -/
def callHashOk (S : List String) : Call → Prop
  | Call.getTrackers h => strLower h ∈ S
  | Call.editTracker h _ _ => strLower h ∈ S
  | _ => True

/-- All calls recorded in a run state satisfy `P`. -/
def CallsOk (P : Call → Prop) (st : RunState) : Prop :=
  ∀ c ∈ st.calls, P c

lemma stepTracker_skip (env : Env) (pat repl : String) (dry : Bool)
    (t : Torrent) (st : RunState) (tr : TrackerEntry) (h : skipUrl tr.url = true) :
    stepTracker env pat repl dry t st tr = st := by
  unfold stepTracker
  rw [if_pos h]

lemma stepTracker_cases (env : Env) (pat repl : String) (dry : Bool)
    (t : Torrent) (st : RunState) (tr : TrackerEntry) :
    stepTracker env pat repl dry t st tr = st ∨
    (skipUrl tr.url = false ∧
      stepTracker env pat repl dry t st tr = { st with checked := st.checked + 1 }) ∨
    (skipUrl tr.url = false ∧ dry = false ∧
      env.editOk t.hash tr.url (env.replaceG pat repl tr.url) = true ∧
      stepTracker env pat repl dry t st tr =
        { checked := st.checked + 1, changed := st.changed + 1,
          calls := st.calls ++ [Call.editTracker t.hash tr.url (env.replaceG pat repl tr.url)] }) ∨
    (skipUrl tr.url = false ∧ dry = false ∧
      env.editOk t.hash tr.url (env.replaceG pat repl tr.url) = false ∧
      stepTracker env pat repl dry t st tr =
        { checked := st.checked + 1, changed := st.changed,
          calls := st.calls ++ [Call.editTracker t.hash tr.url (env.replaceG pat repl tr.url)] }) := by
  by_cases h1 : skipUrl tr.url = true
  · exact Or.inl (stepTracker_skip env pat repl dry t st tr h1)
  · have h1f : skipUrl tr.url = false := by simpa using h1
    by_cases h2 : env.replaceG pat repl tr.url = tr.url
    · refine Or.inr (Or.inl ⟨h1f, ?_⟩)
      simp [stepTracker, h1f, h2]
    · by_cases h3 : dry = true
      · refine Or.inr (Or.inl ⟨h1f, ?_⟩)
        simp [stepTracker, h1f, h2, h3]
      · have h3f : dry = false := by simpa using h3
        by_cases h4 : env.editOk t.hash tr.url (env.replaceG pat repl tr.url) = true
        · refine Or.inr (Or.inr (Or.inl ⟨h1f, h3f, h4, ?_⟩))
          simp [stepTracker, h1f, h2, h3f, h4]
        · have h4f : env.editOk t.hash tr.url (env.replaceG pat repl tr.url) = false := by
            simpa using h4
          refine Or.inr (Or.inr (Or.inr ⟨h1f, h3f, h4f, ?_⟩))
          simp [stepTracker, h1f, h2, h3f, h4f]

lemma callsOk_stepTracker {P : Call → Prop} (env : Env) (pat repl : String) (dry : Bool)
    (t : Torrent) (st : RunState) (tr : TrackerEntry)
    (h : CallsOk P st) (hP : ∀ o n, P (Call.editTracker t.hash o n)) :
    CallsOk P (stepTracker env pat repl dry t st tr) := by
  intro c hc
  rcases stepTracker_cases env pat repl dry t st tr with hcal | ⟨_, hcal⟩ |
      ⟨_, _, _, hcal⟩ | ⟨_, _, _, hcal⟩ <;> rw [hcal] at hc
  · exact h c hc
  · exact h c hc
  all_goals
    rcases List.mem_append.mp hc with hc1 | hc2
    · exact h c hc1
    · rw [List.mem_singleton.mp hc2]; exact hP _ _

lemma callsOk_stepTorrent {P : Call → Prop} (env : Env) (pat repl : String) (dry : Bool)
    (st : RunState) (t : Torrent)
    (h : CallsOk P st) (hPg : P (Call.getTrackers t.hash))
    (hPe : ∀ o n, P (Call.editTracker t.hash o n)) :
    CallsOk P (stepTorrent env pat repl dry st t) := by
  have h1 : CallsOk P { st with calls := st.calls ++ [Call.getTrackers t.hash] } := by
    intro c hc
    rcases List.mem_append.mp hc with hc1 | hc2
    · exact h c hc1
    · rw [List.mem_singleton.mp hc2]; exact hPg
  unfold stepTorrent
  cases henv : env.trackers t.hash with
  | none => exact h1
  | some trs =>
    exact foldl_preserves_mem (CallsOk P) trs (stepTracker env pat repl dry t)
      (fun st tr _ hst => callsOk_stepTracker env pat repl dry t st tr hst hPe) _ h1

lemma changed_le_checked_stepTracker (env : Env) (pat repl : String) (dry : Bool)
    (t : Torrent) (st : RunState) (tr : TrackerEntry) (h : st.changed ≤ st.checked) :
    (stepTracker env pat repl dry t st tr).changed ≤
      (stepTracker env pat repl dry t st tr).checked := by
  rcases stepTracker_cases env pat repl dry t st tr with hcal | ⟨_, hcal⟩ |
      ⟨_, _, _, hcal⟩ | ⟨_, _, _, hcal⟩ <;> rw [hcal] <;> (try simp) <;> omega

lemma changed_le_checked_stepTorrent (env : Env) (pat repl : String) (dry : Bool)
    (st : RunState) (t : Torrent) (h : st.changed ≤ st.checked) :
    (stepTorrent env pat repl dry st t).changed ≤
      (stepTorrent env pat repl dry st t).checked := by
  unfold stepTorrent
  cases henv : env.trackers t.hash with
  | none => exact h
  | some trs =>
    exact foldl_preserves_mem (fun st : RunState => st.changed ≤ st.checked) trs
      (stepTracker env pat repl dry t)
      (fun st tr _ hst => changed_le_checked_stepTracker env pat repl dry t st tr hst) _ h

lemma mem_filterByHashes {hashes : List String} {ts : List Torrent} {t : Torrent}
    (h2 : 1 < hashes.length) (ht : t ∈ filterByHashes hashes ts) :
    strLower t.hash ∈ hashes.map strLower := by
  unfold filterByHashes at ht
  rw [if_pos h2] at ht
  have hmem := (List.mem_filter.mp ht).2
  exact List.elem_iff.mp hmem

/-- Final loop state of a successful run: the two counters and the call
trace after folding the per-torrent loop over the filtered torrent
list, starting from the login and list calls already made. -/
def runLoop (env : Env) (a : Args) (ts0 : List Torrent) : RunState :=
  (filterByHashes a.hash ts0).foldl
    (stepTorrent env (a.pattern.getD ("")) (a.replacement.getD ("")) a.dryRun)
    ⟨0, 0, [Call.login, Call.getTorrents]⟩

/-- Abbreviation for the required-options check of `runOnce`
(`['baseUrl', ...].filter(k => !args[k]).length > 0`). -/
def anyMissing (a : Args) : Bool :=
  [a.baseUrl, a.username, a.password, a.pattern, a.replacement].any fun o => !jsPresent o

lemma runOnce_help (env : Env) (a : Args) (h : a.help = true) :
    runOnce env a = ⟨0, [], none, false⟩ := by
  simp [runOnce, h]

lemma runOnce_missing (env : Env) (a : Args) (hh : a.help = false)
    (hany : anyMissing a = true) :
    runOnce env a = ⟨2, [], none, false⟩ := by
  unfold anyMissing at hany
  simp [runOnce, hh, hany]

lemma runOnce_badRegex (env : Env) (a : Args) (hh : a.help = false)
    (hany : anyMissing a = false) (hrx : env.regexCompiles (a.pattern.getD ("")) = false) :
    runOnce env a = ⟨2, [], none, false⟩ := by
  unfold anyMissing at hany
  simp [runOnce, hh, hany, hrx]

lemma runOnce_authFail (env : Env) (a : Args) (hh : a.help = false)
    (hany : anyMissing a = false) (hrx : env.regexCompiles (a.pattern.getD ("")) = true)
    (hl : env.loginOk = false) :
    runOnce env a = ⟨1, [Call.login], none, false⟩ := by
  unfold anyMissing at hany
  simp [runOnce, hh, hany, hrx, hl]

lemma runOnce_listFail (env : Env) (a : Args) (hh : a.help = false)
    (hany : anyMissing a = false) (hrx : env.regexCompiles (a.pattern.getD ("")) = true)
    (hl : env.loginOk = true) (hts : env.torrents = none) :
    runOnce env a = ⟨1, [Call.login, Call.getTorrents], none, false⟩ := by
  unfold anyMissing at hany
  simp [runOnce, hh, hany, hrx, hl, hts]

lemma runOnce_emptyList (env : Env) (a : Args) (ts0 : List Torrent) (hh : a.help = false)
    (hany : anyMissing a = false) (hrx : env.regexCompiles (a.pattern.getD ("")) = true)
    (hl : env.loginOk = true) (hts : env.torrents = some ts0)
    (hemp : filterByHashes a.hash ts0 = []) :
    runOnce env a = ⟨0, [Call.login, Call.getTorrents], none, true⟩ := by
  unfold anyMissing at hany
  simp [runOnce, hh, hany, hrx, hl, hts, hemp]

lemma runOnce_run (env : Env) (a : Args) (ts0 : List Torrent) (hh : a.help = false)
    (hany : anyMissing a = false) (hrx : env.regexCompiles (a.pattern.getD ("")) = true)
    (hl : env.loginOk = true) (hts : env.torrents = some ts0)
    (hemp : filterByHashes a.hash ts0 ≠ []) :
    runOnce env a =
      ⟨0, (runLoop env a ts0).calls,
        some ⟨(runLoop env a ts0).checked, (runLoop env a ts0).changed, a.dryRun⟩,
        false⟩ := by
  unfold anyMissing at hany
  have hemp2 : (filterByHashes a.hash ts0).isEmpty = false := by
    cases hc : filterByHashes a.hash ts0 with
    | nil => exact absurd hc hemp
    | cons x xs => simp
  simp [runOnce, runLoop, hh, hany, hrx, hl, hts, hemp2]

lemma callsOk_eligible_stepTracker (env : Env) (pat repl : String) (dry : Bool)
    (t : Torrent) (st : RunState) (tr : TrackerEntry)
    (h : CallsOk editUrlEligible st) :
    CallsOk editUrlEligible (stepTracker env pat repl dry t st tr) := by
  intro c hc
  rcases stepTracker_cases env pat repl dry t st tr with hcal | ⟨_, hcal⟩ |
      ⟨hskip, _, _, hcal⟩ | ⟨hskip, _, _, hcal⟩ <;> rw [hcal] at hc
  · exact h c hc
  · exact h c hc
  all_goals
    rcases List.mem_append.mp hc with hc1 | hc2
    · exact h c hc1
    · rw [List.mem_singleton.mp hc2]; exact hskip

lemma callsOk_eligible_stepTorrent (env : Env) (pat repl : String) (dry : Bool)
    (st : RunState) (t : Torrent) (h : CallsOk editUrlEligible st) :
    CallsOk editUrlEligible (stepTorrent env pat repl dry st t) := by
  have h1 : CallsOk editUrlEligible { st with calls := st.calls ++ [Call.getTrackers t.hash] } := by
    intro c hc
    rcases List.mem_append.mp hc with hc1 | hc2
    · exact h c hc1
    · rw [List.mem_singleton.mp hc2]; trivial
  unfold stepTorrent
  cases henv : env.trackers t.hash with
  | none => exact h1
  | some trs =>
    exact foldl_preserves_mem (CallsOk editUrlEligible) trs (stepTracker env pat repl dry t)
      (fun st tr _ hst => callsOk_eligible_stepTracker env pat repl dry t st tr hst) _ h1

lemma callsOk_runOnce {P : Call → Prop} (env : Env) (a : Args)
    (hlog : P Call.login) (hlist : P Call.getTorrents)
    (hstepT : ∀ ts0, env.torrents = some ts0 →
      ∀ st t, t ∈ filterByHashes a.hash ts0 → CallsOk P st →
        CallsOk P (stepTorrent env (a.pattern.getD ("")) (a.replacement.getD ("")) a.dryRun st t)) :
    ∀ c ∈ (runOnce env a).calls, P c := by
  by_cases hh : a.help = true
  · rw [runOnce_help env a hh]
    intro c hc
    simp at hc
  · have hhf : a.help = false := by simpa using hh
    by_cases hany : anyMissing a = true
    · rw [runOnce_missing env a hhf hany]
      intro c hc
      simp at hc
    · have hanyf : anyMissing a = false := by simpa using hany
      by_cases hrx : env.regexCompiles (a.pattern.getD ("")) = true
      · by_cases hl : env.loginOk = true
        · cases hts : env.torrents with
          | none =>
            rw [runOnce_listFail env a hhf hanyf hrx hl hts]
            intro c hc
            simp at hc
            rcases hc with rfl | rfl
            · exact hlog
            · exact hlist
          | some ts0 =>
            by_cases hemp : filterByHashes a.hash ts0 = []
            · rw [runOnce_emptyList env a ts0 hhf hanyf hrx hl hts hemp]
              intro c hc
              simp at hc
              rcases hc with rfl | rfl
              · exact hlog
              · exact hlist
            · rw [runOnce_run env a ts0 hhf hanyf hrx hl hts hemp]
              have hinit : CallsOk P ⟨0, 0, [Call.login, Call.getTorrents]⟩ := by
                intro c hc
                simp at hc
                rcases hc with rfl | rfl
                · exact hlog
                · exact hlist
              exact foldl_preserves_mem (CallsOk P) (filterByHashes a.hash ts0) _
                (fun st t ht hst => hstepT ts0 hts st t ht hst) _ hinit
        · have hlf : env.loginOk = false := by simpa using hl
          rw [runOnce_authFail env a hhf hanyf hrx hlf]
          intro c hc
          simp at hc
          subst hc
          exact hlog
      · have hrxf : env.regexCompiles (a.pattern.getD ("")) = false := by simpa using hrx
        rw [runOnce_badRegex env a hhf hanyf hrxf]
        intro c hc
        simp at hc

lemma allPresent_of_anyMissing_false {a : Args} (h : anyMissing a = false) :
    jsPresent a.baseUrl = true ∧ jsPresent a.username = true ∧ jsPresent a.password = true ∧
    jsPresent a.pattern = true ∧ jsPresent a.replacement = true := by
  unfold anyMissing at h
  rw [List.any_eq_false] at h
  refine ⟨?_, ?_, ?_, ?_, ?_⟩ <;>
    first
      | simpa using h a.baseUrl (by simp)
      | simpa using h a.username (by simp)
      | simpa using h a.password (by simp)
      | simpa using h a.pattern (by simp)
      | simpa using h a.replacement (by simp)

/-- C5: a missing required option (base URL, username, password,
pattern or replacement) or a pattern that does not compile makes the
run return the configuration-error code 2 with no network call
recorded, while an authentication failure returns code 1 after only
the login call and a failing initial torrent listing returns code 1
after only the login and list calls. -/
theorem config_errors_fail_fast (env : Env) (a : Args) (hh : a.help = false) :
    ((jsPresent a.baseUrl = false ∨ jsPresent a.username = false ∨
      jsPresent a.password = false ∨ jsPresent a.pattern = false ∨
      jsPresent a.replacement = false ∨
      env.regexCompiles (a.pattern.getD ("")) = false) →
      runOnce env a = ⟨2, [], none, false⟩) ∧
    (anyMissing a = false → env.regexCompiles (a.pattern.getD ("")) = true →
      (env.loginOk = false → runOnce env a = ⟨1, [Call.login], none, false⟩) ∧
      (env.loginOk = true → env.torrents = none →
        runOnce env a = ⟨1, [Call.login, Call.getTorrents], none, false⟩)) := by
  constructor
  · intro hmiss
    by_cases hany : anyMissing a = true
    · exact runOnce_missing env a hh hany
    · have hanyf : anyMissing a = false := by simpa using hany
      obtain ⟨h1, h2, h3, h4, h5⟩ := allPresent_of_anyMissing_false hanyf
      rcases hmiss with h | h | h | h | h | h
      · rw [h1] at h; exact absurd h (by simp)
      · rw [h2] at h; exact absurd h (by simp)
      · rw [h3] at h; exact absurd h (by simp)
      · rw [h4] at h; exact absurd h (by simp)
      · rw [h5] at h; exact absurd h (by simp)
      · exact runOnce_badRegex env a hh hanyf h
  · intro hanyf hrx
    exact ⟨fun hlf => runOnce_authFail env a hh hanyf hrx hlf,
      fun hl hts => runOnce_listFail env a hh hanyf hrx hl hts⟩

/-- C6: once authentication and the initial listing succeed the run's
result code is 0 whatever the per-item outcomes are; a tracker-fetch
failure only appends the fetch call and skips that torrent, an edit
failure only appends the edit call (counting the URL as checked but
not changed), and both loops continue with the remaining items. -/
theorem per_item_failures_isolated (env : Env) (a : Args) (ts0 : List Torrent)
    (hh : a.help = false) (hany : anyMissing a = false)
    (hrx : env.regexCompiles (a.pattern.getD ("")) = true)
    (hl : env.loginOk = true) (hts : env.torrents = some ts0) :
    (runOnce env a).code = 0 ∧
    (∀ pat repl dry st t, env.trackers t.hash = none →
      stepTorrent env pat repl dry st t =
        { st with calls := st.calls ++ [Call.getTrackers t.hash] }) ∧
    (∀ pat repl st t tr, skipUrl tr.url = false →
      env.replaceG pat repl tr.url ≠ tr.url →
      env.editOk t.hash tr.url (env.replaceG pat repl tr.url) = false →
      stepTracker env pat repl false t st tr =
        { checked := st.checked + 1, changed := st.changed,
          calls := st.calls ++ [Call.editTracker t.hash tr.url (env.replaceG pat repl tr.url)] }) ∧
    (∀ pat repl dry t st tr trs,
      List.foldl (stepTracker env pat repl dry t) st (tr :: trs) =
        List.foldl (stepTracker env pat repl dry t) (stepTracker env pat repl dry t st tr) trs) ∧
    (∀ pat repl dry st t ts,
      List.foldl (stepTorrent env pat repl dry) st (t :: ts) =
        List.foldl (stepTorrent env pat repl dry) (stepTorrent env pat repl dry st t) ts) := by
  refine ⟨?_, ?_, ?_, fun _ _ _ _ _ _ _ => rfl, fun _ _ _ _ _ _ => rfl⟩
  · by_cases hemp : filterByHashes a.hash ts0 = []
    · rw [runOnce_emptyList env a ts0 hh hany hrx hl hts hemp]
    · rw [runOnce_run env a ts0 hh hany hrx hl hts hemp]
  · intro pat repl dry st t htr
    unfold stepTorrent
    rw [htr]
  · intro pat repl st t tr hskip hne hedit
    simp [stepTracker, hskip, hne, hedit]

/-- C2 (amended): when the filtered torrent list is empty the run
returns success with only the login and list calls and prints the
no-torrents message instead of the checked/changed summary; when it is
nonempty the run reaches the final report. -/
theorem empty_list_success (env : Env) (a : Args) (ts0 : List Torrent)
    (hh : a.help = false) (hany : anyMissing a = false)
    (hrx : env.regexCompiles (a.pattern.getD ("")) = true)
    (hl : env.loginOk = true) (hts : env.torrents = some ts0) :
    (filterByHashes a.hash ts0 = [] →
      runOnce env a = ⟨0, [Call.login, Call.getTorrents], none, true⟩) ∧
    (filterByHashes a.hash ts0 ≠ [] →
      (runOnce env a).summary =
        some ⟨(runLoop env a ts0).checked, (runLoop env a ts0).changed, a.dryRun⟩) := by
  constructor
  · intro hemp
    exact runOnce_emptyList env a ts0 hh hany hrx hl hts hemp
  · intro hemp
    rw [runOnce_run env a ts0 hh hany hrx hl hts hemp]

/-- C3: with more than one requested hash, every torrent kept by the
client-side filter has its lowercased hash in the lowercased requested
set, and every tracker-fetch or edit call of the whole run targets a
hash in that set. -/
theorem multi_hash_subset (env : Env) (a : Args) (ts0 : List Torrent)
    (h2 : 1 < a.hash.length) (hts : env.torrents = some ts0) :
    (∀ t ∈ filterByHashes a.hash ts0, strLower t.hash ∈ a.hash.map strLower) ∧
    (∀ c ∈ (runOnce env a).calls, callHashOk (a.hash.map strLower) c) := by
  refine ⟨fun t ht => mem_filterByHashes h2 ht, ?_⟩
  refine callsOk_runOnce env a trivial trivial ?_
  intro ts1 hts1 st t ht hst
  rw [hts] at hts1
  injection hts1 with heq
  subst heq
  have hmem : strLower t.hash ∈ a.hash.map strLower := mem_filterByHashes h2 ht
  exact callsOk_stepTorrent env _ _ _ st t hst hmem (fun _ _ => hmem)

/-- C4: no edit call of any run carries a URL that failed the
`^https?://` eligibility test, and a tracker entry whose URL is empty
or non-HTTP leaves the loop state untouched: no call is made and the
checked counter is not incremented. -/
theorem non_http_never_edited (env : Env) (a : Args) :
    (∀ c ∈ (runOnce env a).calls, editUrlEligible c) ∧
    (∀ pat repl dry t st tr, skipUrl tr.url = true →
      stepTracker env pat repl dry t st tr = st) := by
  constructor
  · exact callsOk_runOnce env a trivial trivial
      (fun ts0 _ st t _ hst => callsOk_eligible_stepTorrent env _ _ _ st t hst)
  · exact fun pat repl dry t st tr h => stepTracker_skip env pat repl dry t st tr h

/-- C10: in a non-preview run a tracker step either leaves the changed
counter alone or increments it by exactly one together with a recorded
edit call whose edit succeeded; both loop steps preserve the invariant
changed less-or-equal checked, and the reported summary satisfies it. -/
theorem changed_only_on_successful_edit (env : Env) (a : Args)
    (hdry : a.dryRun = false) :
    (∀ pat repl t st tr,
      (stepTracker env pat repl false t st tr).changed = st.changed ∨
      (env.editOk t.hash tr.url (env.replaceG pat repl tr.url) = true ∧
        (stepTracker env pat repl false t st tr).changed = st.changed + 1 ∧
        (stepTracker env pat repl false t st tr).calls =
          st.calls ++ [Call.editTracker t.hash tr.url (env.replaceG pat repl tr.url)])) ∧
    (∀ pat repl t st tr, st.changed ≤ st.checked →
      (stepTracker env pat repl false t st tr).changed ≤
        (stepTracker env pat repl false t st tr).checked) ∧
    (∀ pat repl st t, st.changed ≤ st.checked →
      (stepTorrent env pat repl false st t).changed ≤
        (stepTorrent env pat repl false st t).checked) ∧
    (∀ s, (runOnce env a).summary = some s → s.changed ≤ s.checked) := by
  refine ⟨?_, ?_, ?_, ?_⟩
  · intro pat repl t st tr
    rcases stepTracker_cases env pat repl false t st tr with hcal | ⟨_, hcal⟩ |
        ⟨_, _, hedit, hcal⟩ | ⟨_, _, _, hcal⟩ <;> rw [hcal]
    · exact Or.inl rfl
    · exact Or.inl rfl
    · exact Or.inr ⟨hedit, rfl, rfl⟩
    · exact Or.inl rfl
  · exact fun pat repl t st tr h =>
      changed_le_checked_stepTracker env pat repl false t st tr h
  · exact fun pat repl st t h =>
      changed_le_checked_stepTorrent env pat repl false st t h
  · intro s hs
    by_cases hh : a.help = true
    · rw [runOnce_help env a hh] at hs
      exact absurd hs (by simp)
    · have hhf : a.help = false := by simpa using hh
      by_cases hany : anyMissing a = true
      · rw [runOnce_missing env a hhf hany] at hs
        exact absurd hs (by simp)
      · have hanyf : anyMissing a = false := by simpa using hany
        by_cases hrx : env.regexCompiles (a.pattern.getD ("")) = true
        · by_cases hl : env.loginOk = true
          · cases hts : env.torrents with
            | none =>
              rw [runOnce_listFail env a hhf hanyf hrx hl hts] at hs
              exact absurd hs (by simp)
            | some ts0 =>
              by_cases hemp : filterByHashes a.hash ts0 = []
              · rw [runOnce_emptyList env a ts0 hhf hanyf hrx hl hts hemp] at hs
                exact absurd hs (by simp)
              · rw [runOnce_run env a ts0 hhf hanyf hrx hl hts hemp] at hs
                have hinv : (runLoop env a ts0).changed ≤ (runLoop env a ts0).checked := by
                  unfold runLoop
                  exact foldl_preserves_mem
                    (fun st : RunState => st.changed ≤ st.checked)
                    (filterByHashes a.hash ts0) _
                    (fun st t _ h =>
                      changed_le_checked_stepTorrent env _ _ _ st t h)
                    _ (Nat.le_refl 0)
                have hsum : s = ⟨(runLoop env a ts0).checked, (runLoop env a ts0).changed, a.dryRun⟩ := by
                  simpa using hs.symm
                rw [hsum]
                exact hinv
          · have hlf : env.loginOk = false := by simpa using hl
            rw [runOnce_authFail env a hhf hanyf hrx hlf] at hs
            exact absurd hs (by simp)
        · have hrxf : env.regexCompiles (a.pattern.getD ("")) = false := by simpa using hrx
          rw [runOnce_badRegex env a hhf hanyf hrxf] at hs
          exact absurd hs (by simp)

/-- Concrete torrent used in the witness runs. -/
def tAlpha : Torrent := ⟨"AAA", "Alpha"⟩

/-- Concrete torrent whose tracker fetch fails in the witness runs. -/
def tBeta : Torrent := ⟨"bbb", "Beta"⟩

/-- Concrete torrent excluded by the hash filter in the witness runs. -/
def tGamma : Torrent := ⟨"ccc", "Gamma"⟩

/-- Concrete remote system: three torrents; `AAA` has one matching
HTTP tracker, one UDP tracker and one non-matching HTTP tracker; the
tracker fetch for `bbb` fails; every edit succeeds; the rewrite maps
`http://old/a` to `http://new/a`. -/
def envW : Env :=
  { loginOk := true
    torrents := some [tAlpha, tBeta, tGamma]
    trackers := fun h =>
      if h = "AAA" then some [⟨"http://old/a"⟩, ⟨"udp://x"⟩, ⟨"http://keep/b"⟩]
      else if h = "bbb" then none
      else some []
    editOk := fun _ _ _ => true
    regexCompiles := fun _ => true
    replaceG := fun _ _ u => if u = "http://old/a" then ("http://new/a") else u }

/-- Concrete arguments: all required options present, two requested
hashes differing from the stored ones only by case, no preview. -/
def argsW : Args :=
  { help := false
    baseUrl := some ("http://qbt:8080")
    username := some ("admin")
    password := some ("secret")
    pattern := some ("old")
    replacement := some ("new")
    hash := ["aaa", "BBB"]
    dryRun := false }

/-- The same arguments with preview (dry-run) enabled. -/
def argsDry : Args := { argsW with dryRun := true }

/-- The same arguments with the required password missing. -/
def argsNoPass : Args := { argsW with password := none }

/-- The same arguments without an explicit hash filter. -/
def argsNoHash : Args := { argsW with hash := [] }

/-- The remote system with a failing login. -/
def envAuthFail : Env := { envW with loginOk := false }

/-- The remote system returning an empty torrent list. -/
def envNoTorrents : Env := { envW with torrents := some [] }

/-- The remote system on which every edit fails. -/
def envEditFail : Env := { envW with editOk := fun _ _ _ => false }

/-- C1 (bug evaluation): on the same torrents and rule, the preview
run makes no edit call and reports the summary pair checked 2, would
change 0, while the non-preview run with every edit succeeding reports
checked 2, changed 1: the dry-run branch never increments the changed
counter, so the reported would-change count is always 0. -/
theorem dry_run_count_bug :
    (runOnce envW argsDry).calls =
      [Call.login, Call.getTorrents, Call.getTrackers ("AAA"), Call.getTrackers ("bbb")] ∧
    (runOnce envW argsDry).summary = some ⟨2, 0, true⟩ ∧
    (runOnce envW argsW).summary = some ⟨2, 1, false⟩ :=
  ⟨by decide, by decide, by decide⟩

/-- Closed instance of the configuration-error theorem: a missing
password yields code 2 with no calls, and a failing login yields code 1
after only the login call. -/
theorem config_errors_fail_fast_witness :
    runOnce envW argsNoPass = ⟨2, [], none, false⟩ ∧
    runOnce envAuthFail argsW = ⟨1, [Call.login], none, false⟩ :=
  ⟨(config_errors_fail_fast envW argsNoPass rfl).1 (Or.inr (Or.inr (Or.inl rfl))),
   ((config_errors_fail_fast envAuthFail argsW rfl).2 rfl rfl).1 rfl⟩

/-- Closed instance of the per-item failure theorem: the run over the
witness system returns code 0 although one tracker fetch fails; the
failing fetch for `bbb` only records its call; a failing edit records
the edit call, counts the URL as checked and leaves changed at 0. -/
theorem per_item_failures_isolated_witness :
    (runOnce envW argsW).code = 0 ∧
    stepTorrent envW ("old") ("new") false ⟨0, 0, []⟩ tBeta =
      { checked := 0, changed := 0, calls := [Call.getTrackers ("bbb")] } ∧
    stepTracker envEditFail ("old") ("new") false tAlpha ⟨0, 0, []⟩ ⟨"http://old/a"⟩ =
      { checked := 1, changed := 0,
        calls := [Call.editTracker ("AAA") ("http://old/a") ("http://new/a")] } :=
  ⟨(per_item_failures_isolated envW argsW [tAlpha, tBeta, tGamma] rfl rfl rfl rfl rfl).1,
   (per_item_failures_isolated envW argsW [tAlpha, tBeta, tGamma] rfl rfl rfl rfl rfl).2.1
     ("old") ("new") false ⟨0, 0, []⟩ tBeta rfl,
   (per_item_failures_isolated envEditFail argsW [tAlpha, tBeta, tGamma] rfl rfl rfl rfl rfl).2.2.1
     ("old") ("new") ⟨0, 0, []⟩ tAlpha ⟨"http://old/a"⟩ (by decide) (by decide) rfl⟩

/-- C2 (counterexample to the claim as stated): with zero torrents the
run succeeds with no tracker-fetch or edit call, but the final
checked/changed summary is not emitted: the early no-torrents message
is printed instead, so the run does not reach the report step. -/
theorem empty_list_counterexample :
    (runOnce envNoTorrents argsNoHash).code = 0 ∧
    (runOnce envNoTorrents argsNoHash).calls = [Call.login, Call.getTorrents] ∧
    (runOnce envNoTorrents argsNoHash).summary = none ∧
    (runOnce envNoTorrents argsNoHash).noTorrentsMsg = true :=
  ⟨by decide, by decide, by decide, by decide⟩

/-- Closed instance of the amended empty-list theorem: the empty run
returns the early success result, and the nonempty witness run reaches
the report with its computed counters. -/
theorem empty_list_success_witness :
    runOnce envNoTorrents argsNoHash = ⟨0, [Call.login, Call.getTorrents], none, true⟩ ∧
    (runOnce envW argsW).summary =
      some ⟨(runLoop envW argsW [tAlpha, tBeta, tGamma]).checked,
        (runLoop envW argsW [tAlpha, tBeta, tGamma]).changed, argsW.dryRun⟩ :=
  ⟨(empty_list_success envNoTorrents argsNoHash [] rfl rfl rfl rfl rfl).1 rfl,
   (empty_list_success envW argsW [tAlpha, tBeta, tGamma] rfl rfl rfl rfl rfl).2 (by decide)⟩

/-- Closed instance of the multi-hash theorem: the kept torrent `AAA`
has its lowercased hash in the requested set, and the tracker fetch
recorded for it targets a requested hash. -/
theorem multi_hash_subset_witness :
    strLower tAlpha.hash ∈ argsW.hash.map strLower ∧
    callHashOk (argsW.hash.map strLower) (Call.getTrackers ("AAA")) :=
  ⟨(multi_hash_subset envW argsW [tAlpha, tBeta, tGamma] (by decide) rfl).1 tAlpha (by decide),
   (multi_hash_subset envW argsW [tAlpha, tBeta, tGamma] (by decide) rfl).2
     (Call.getTrackers ("AAA")) (by decide)⟩

/-- Closed instance of the eligibility theorem: the edit call recorded
by the witness run carries an eligible URL, and a UDP tracker entry
leaves the loop state untouched. -/
theorem non_http_never_edited_witness :
    editUrlEligible (Call.editTracker ("AAA") ("http://old/a") ("http://new/a")) ∧
    stepTracker envW ("old") ("new") false tAlpha ⟨5, 2, []⟩ ⟨"udp://x"⟩ = ⟨5, 2, []⟩ :=
  ⟨(non_http_never_edited envW argsW).1
     (Call.editTracker ("AAA") ("http://old/a") ("http://new/a")) (by decide),
   (non_http_never_edited envW argsW).2 ("old") ("new") false tAlpha ⟨5, 2, []⟩
     ⟨"udp://x"⟩ (by decide)⟩

/-- Closed instance of the counter-invariant theorem: the witness run
reports checked 2, changed 1, and the invariant gives 1 at most 2. -/
theorem changed_only_on_successful_edit_witness :
    (runOnce envW argsW).summary = some ⟨2, 1, false⟩ ∧ (1 : ℕ) ≤ 2 :=
  ⟨by decide,
   (changed_only_on_successful_edit envW argsW rfl).2.2.2 ⟨2, 1, false⟩ (by decide)⟩

end ATC
